import Mathlib

set_option maxRecDepth 100000

/-!
Verification of the shadow-soul SDK core against its specification.

Byte sequences (TypeScript Uint8Array values) are modelled as lists of
naturals below 256; JavaScript bigint values are modelled as Nat (all
values handled by the SDK are non-negative) with explicit reductions
where the code truncates.  SHA-256 and SHA-512 (the @noble/hashes
primitives the SDK calls) and ed25519 public-key derivation
(@noble/curves, RFC 8032) are implemented concretely so that the
stealth-address protocol can be evaluated on concrete inputs.
-/

/-- sdk/src/utils.ts bufferToBigInt: big-endian bytes to integer,
folding result = (result << 8) | byte. -/
def bufferToBigInt (buffer : List Nat) : Nat :=
  buffer.foldl (fun result b => (result <<< 8) ||| b) 0

/-- sdk/src/utils.ts bigIntToBuffer: integer to big-endian bytes padded
to the given length; byte i (from the left) holds bit-range
8*(length-1-i).  The source fills from the right taking value & 0xff and
shifting; this recursion produces the same bytes. -/
def bigIntToBuffer (value : Nat) : Nat → List Nat
  | 0 => []
  | n + 1 => bigIntToBuffer (value >>> 8) n ++ [value &&& 255]

/-- Interpret a list of big-endian bytes as words of the given byte width
(fuel-driven so the kernel can evaluate it). -/
def wordsOfBytesBEGo (chunk : Nat) : Nat → List Nat → List Nat
  | 0, _ => []
  | _ + 1, [] => []
  | fuel + 1, l => bufferToBigInt (l.take chunk) :: wordsOfBytesBEGo chunk fuel (l.drop chunk)

def wordsOfBytesBE (chunk : Nat) (l : List Nat) : List Nat :=
  wordsOfBytesBEGo chunk l.length l

/-- Split a byte list into blocks of the given size (fuel-driven so the
kernel can evaluate it). -/
def chunksGo (size : Nat) : Nat → List Nat → List (List Nat)
  | 0, _ => []
  | _ + 1, [] => []
  | fuel + 1, l => l.take size :: chunksGo size fuel (l.drop size)

def chunks (size : Nat) (l : List Nat) : List (List Nat) :=
  chunksGo size l.length l

/-! ## SHA-256 (FIPS 180-4), as used by @noble/hashes/sha256 -/

def w32 (x : Nat) : Nat := x &&& 0xffffffff

def rotr32 (n x : Nat) : Nat := w32 ((x >>> n) ||| (x <<< (32 - n)))

def sha256K : List Nat := [
  1116352408, 1899447441, 3049323471, 3921009573,
  961987163, 1508970993, 2453635748, 2870763221,
  3624381080, 310598401, 607225278, 1426881987,
  1925078388, 2162078206, 2614888103, 3248222580,
  3835390401, 4022224774, 264347078, 604807628,
  770255983, 1249150122, 1555081692, 1996064986,
  2554220882, 2821834349, 2952996808, 3210313671,
  3336571891, 3584528711, 113926993, 338241895,
  666307205, 773529912, 1294757372, 1396182291,
  1695183700, 1986661051, 2177026350, 2456956037,
  2730485921, 2820302411, 3259730800, 3345764771,
  3516065817, 3600352804, 4094571909, 275423344,
  430227734, 506948616, 659060556, 883997877,
  958139571, 1322822218, 1537002063, 1747873779,
  1955562222, 2024104815, 2227730452, 2361852424,
  2428436474, 2756734187, 3204031479, 3329325298]

def sha256H0 : List Nat := [
  1779033703, 3144134277, 1013904242, 2773480762,
  1359893119, 2600822924, 528734635, 1541459225]

def sha256SmallSigma0 (x : Nat) : Nat :=
  (rotr32 7 x) ^^^ (rotr32 18 x) ^^^ (x >>> 3)

def sha256SmallSigma1 (x : Nat) : Nat :=
  (rotr32 17 x) ^^^ (rotr32 19 x) ^^^ (x >>> 10)

def sha256BigSigma0 (x : Nat) : Nat :=
  (rotr32 2 x) ^^^ (rotr32 13 x) ^^^ (rotr32 22 x)

def sha256BigSigma1 (x : Nat) : Nat :=
  (rotr32 6 x) ^^^ (rotr32 11 x) ^^^ (rotr32 25 x)

/-- Message-schedule extension: append words 16..63. -/
def sha256Extend : Nat → List Nat → List Nat
  | 0, ws => ws
  | k + 1, ws =>
    let n := ws.length
    let next := w32 (sha256SmallSigma1 (ws.getD (n - 2) 0) + ws.getD (n - 7) 0 +
      sha256SmallSigma0 (ws.getD (n - 15) 0) + ws.getD (n - 16) 0)
    sha256Extend k (ws ++ [next])

/-- One round of the SHA-256 compression main loop. -/
def sha256Round (st : List Nat) (kw : Nat × Nat) : List Nat :=
  match st with
  | [a, b, c, d, e, f, g, h] =>
    let t1 := w32 (h + sha256BigSigma1 e + ((e &&& f) ^^^ ((0xffffffff ^^^ e) &&& g)) +
      kw.1 + kw.2)
    let t2 := w32 (sha256BigSigma0 a + ((a &&& b) ^^^ (a &&& c) ^^^ (b &&& c)))
    [w32 (t1 + t2), a, b, c, w32 (d + t1), e, f, g]
  | other => other

/-- Compress one 64-byte block into the running state. -/
def sha256Compress (h : List Nat) (block : List Nat) : List Nat :=
  let ws := sha256Extend 48 (wordsOfBytesBE 4 block)
  let st := (ws.zip sha256K).foldl sha256Round h
  (h.zip st).map (fun p => w32 (p.1 + p.2))

/-- SHA-256 message padding: 0x80, zeros, 64-bit big-endian bit length. -/
def sha256Pad (msg : List Nat) : List Nat :=
  msg ++ [128] ++ List.replicate ((119 - msg.length % 64) % 64) 0 ++
    bigIntToBuffer (8 * msg.length) 8

/-- SHA-256 of a byte list, producing 32 bytes. -/
def sha256 (msg : List Nat) : List Nat :=
  let final := (chunks 64 (sha256Pad msg)).foldl sha256Compress sha256H0
  final.foldr (fun word acc => bigIntToBuffer word 4 ++ acc) []



/-! ## SHA-512 (FIPS 180-4), as used for ed25519 key derivation -/

def w64 (x : Nat) : Nat := x &&& 0xffffffffffffffff

def rotr64 (n x : Nat) : Nat := w64 ((x >>> n) ||| (x <<< (64 - n)))

def sha512K : List Nat := [
  4794697086780616226, 8158064640168781261,
  13096744586834688815, 16840607885511220156,
  4131703408338449720, 6480981068601479193,
  10538285296894168987, 12329834152419229976,
  15566598209576043074, 1334009975649890238,
  2608012711638119052, 6128411473006802146,
  8268148722764581231, 9286055187155687089,
  11230858885718282805, 13951009754708518548,
  16472876342353939154, 17275323862435702243,
  1135362057144423861, 2597628984639134821,
  3308224258029322869, 5365058923640841347,
  6679025012923562964, 8573033837759648693,
  10970295158949994411, 12119686244451234320,
  12683024718118986047, 13788192230050041572,
  14330467153632333762, 15395433587784984357,
  489312712824947311, 1452737877330783856,
  2861767655752347644, 3322285676063803686,
  5560940570517711597, 5996557281743188959,
  7280758554555802590, 8532644243296465576,
  9350256976987008742, 10552545826968843579,
  11727347734174303076, 12113106623233404929,
  14000437183269869457, 14369950271660146224,
  15101387698204529176, 15463397548674623760,
  17586052441742319658, 1182934255886127544,
  1847814050463011016, 2177327727835720531,
  2830643537854262169, 3796741975233480872,
  4115178125766777443, 5681478168544905931,
  6601373596472566643, 7507060721942968483,
  8399075790359081724, 8693463985226723168,
  9568029438360202098, 10144078919501101548,
  10430055236837252648, 11840083180663258601,
  13761210420658862357, 14299343276471374635,
  14566680578165727644, 15097957966210449927,
  16922976911328602910, 17689382322260857208,
  500013540394364858, 748580250866718886,
  1242879168328830382, 1977374033974150939,
  2944078676154940804, 3659926193048069267,
  4368137639120453308, 4836135668995329356,
  5532061633213252278, 6448918945643986474,
  6902733635092675308, 7801388544844847127]

def sha512H0 : List Nat := [
  7640891576956012808, 13503953896175478587,
  4354685564936845355, 11912009170470909681,
  5840696475078001361, 11170449401992604703,
  2270897969802886507, 6620516959819538809]

def sha512SmallSigma0 (x : Nat) : Nat :=
  (rotr64 1 x) ^^^ (rotr64 8 x) ^^^ (x >>> 7)

def sha512SmallSigma1 (x : Nat) : Nat :=
  (rotr64 19 x) ^^^ (rotr64 61 x) ^^^ (x >>> 6)

def sha512BigSigma0 (x : Nat) : Nat :=
  (rotr64 28 x) ^^^ (rotr64 34 x) ^^^ (rotr64 39 x)

def sha512BigSigma1 (x : Nat) : Nat :=
  (rotr64 14 x) ^^^ (rotr64 18 x) ^^^ (rotr64 41 x)

def sha512Extend : Nat → List Nat → List Nat
  | 0, ws => ws
  | k + 1, ws =>
    let n := ws.length
    let next := w64 (sha512SmallSigma1 (ws.getD (n - 2) 0) + ws.getD (n - 7) 0 +
      sha512SmallSigma0 (ws.getD (n - 15) 0) + ws.getD (n - 16) 0)
    sha512Extend k (ws ++ [next])

def sha512Round (st : List Nat) (kw : Nat × Nat) : List Nat :=
  match st with
  | [a, b, c, d, e, f, g, h] =>
    let t1 := w64 (h + sha512BigSigma1 e +
      ((e &&& f) ^^^ ((0xffffffffffffffff ^^^ e) &&& g)) + kw.1 + kw.2)
    let t2 := w64 (sha512BigSigma0 a + ((a &&& b) ^^^ (a &&& c) ^^^ (b &&& c)))
    [w64 (t1 + t2), a, b, c, w64 (d + t1), e, f, g]
  | other => other

def sha512Compress (h : List Nat) (block : List Nat) : List Nat :=
  let ws := sha512Extend 64 (wordsOfBytesBE 8 block)
  let st := (ws.zip sha512K).foldl sha512Round h
  (h.zip st).map (fun p => w64 (p.1 + p.2))

/-- SHA-512 padding: 0x80, zeros, 128-bit big-endian bit length. -/
def sha512Pad (msg : List Nat) : List Nat :=
  msg ++ [128] ++ List.replicate ((239 - msg.length % 128) % 128) 0 ++
    bigIntToBuffer (8 * msg.length) 16

/-- SHA-512 of a byte list, producing 64 bytes. -/
def sha512 (msg : List Nat) : List Nat :=
  let final := (chunks 128 (sha512Pad msg)).foldl sha512Compress sha512H0
  final.foldr (fun word acc => bigIntToBuffer word 8 ++ acc) []


/-! ## ed25519 public-key derivation (RFC 8032, as in @noble/curves)

Field arithmetic is over p = 2^255 - 19 on Nat with explicit reduction;
points use extended twisted-Edwards coordinates. -/

def p25519 : Nat := 2 ^ 255 - 19

/-- ed25519 group order (the curve order of the prime subgroup). -/
def ell25519 : Nat := 2 ^ 252 + 27742317777372353535851937790883648493

def d25519 : Nat :=
  37095705934669439343138083508754565189542113879843219016388785533085940283555

/-- Subtraction mod p for operands below p. -/
def fsub (a b : Nat) : Nat := (a + p25519 - b) % p25519

/-- Binary modular exponentiation, fuel-driven. -/
def powModGo (m : Nat) : Nat → Nat → Nat → Nat → Nat
  | 0, _, _, acc => acc
  | fuel + 1, b, e, acc =>
    powModGo m fuel (b * b % m) (e >>> 1) (if e &&& 1 = 1 then acc * b % m else acc)

def pinv (a : Nat) : Nat := powModGo p25519 256 (a % p25519) (p25519 - 2) 1

structure EdPoint where
  x : Nat
  y : Nat
  z : Nat
  t : Nat
  deriving DecidableEq

def edZero : EdPoint := ⟨0, 1, 1, 0⟩

def edBase : EdPoint :=
  let bx := 15112221349535400772501151409588531511454012693041857206046113283949847762202
  let by' := 46316835694926478169428394003475163141307993866256225615783033603165251855960
  ⟨bx, by', 1, bx * by' % p25519⟩

/-- Extended-coordinate point addition (RFC 8032 section 5.1.4). -/
def edAdd (P Q : EdPoint) : EdPoint :=
  let A := fsub P.y P.x * fsub Q.y Q.x % p25519
  let B := (P.y + P.x) % p25519 * ((Q.y + Q.x) % p25519) % p25519
  let C := 2 * P.t % p25519 * Q.t % p25519 * d25519 % p25519
  let D := 2 * P.z % p25519 * Q.z % p25519
  let E := fsub B A
  let F := fsub D C
  let G := (D + C) % p25519
  let H := (B + A) % p25519
  ⟨E * F % p25519, G * H % p25519, F * G % p25519, E * H % p25519⟩

/-- Extended-coordinate point doubling (RFC 8032 section 5.1.4). -/
def edDouble (P : EdPoint) : EdPoint :=
  let A := P.x * P.x % p25519
  let B := P.y * P.y % p25519
  let C := 2 * (P.z * P.z % p25519) % p25519
  let H := (A + B) % p25519
  let E := fsub H ((P.x + P.y) * (P.x + P.y) % p25519)
  let G := fsub A B
  let F := (C + G) % p25519
  ⟨E * F % p25519, G * H % p25519, F * G % p25519, E * H % p25519⟩

/-- Double-and-add scalar multiplication, fuel-driven over the scalar bits. -/
def edScalarMulGo : Nat → Nat → EdPoint → EdPoint → EdPoint
  | 0, _, _, acc => acc
  | fuel + 1, s, P, acc =>
    edScalarMulGo fuel (s >>> 1) (edDouble P)
      (if s &&& 1 = 1 then edAdd acc P else acc)

def edScalarMul (s : Nat) (P : EdPoint) : EdPoint :=
  edScalarMulGo 256 s P edZero

/-- Little-endian byte decoding. -/
def natFromLEBytes (l : List Nat) : Nat :=
  l.foldr (fun b acc => b + 256 * acc) 0

/-- Little-endian byte encoding, fixed width. -/
def natToLEBytes (value : Nat) : Nat → List Nat
  | 0 => []
  | n + 1 => (value &&& 255) :: natToLEBytes (value >>> 8) n

/-- Point compression: 32 little-endian bytes of y, top bit set to the
parity of x. -/
def edCompress (P : EdPoint) : List Nat :=
  let zinv := pinv P.z
  let x := P.x * zinv % p25519
  let y := P.y * zinv % p25519
  let bytes := natToLEBytes y 32
  bytes.set 31 (bytes.getD 31 0 ||| ((x &&& 1) <<< 7))

/-- RFC 8032 secret-scalar clamping of the first 32 bytes of SHA-512(seed). -/
def edClamp (l : List Nat) : List Nat :=
  (l.set 0 (l.getD 0 0 &&& 248)).set 31 ((l.getD 31 0 &&& 127) ||| 64)

/-- ed25519.getPublicKey of @noble/curves: hash the 32-byte seed with
SHA-512, clamp the low half into a scalar, multiply the base point,
compress. -/
def ed25519GetPublicKey (seed : List Nat) : List Nat :=
  let h := sha512 seed
  let s := natFromLEBytes (edClamp (h.take 32))
  edCompress (edScalarMul s edBase)


/-! ## Stealth addresses (sdk/src/stealth.ts)

Uint8Array values are byte lists; the Solana PublicKey wrapping an
address is modelled by its 32 bytes.  Functions that draw fresh
randomness in the source (randomBytes) take the drawn bytes as an
explicit argument. -/

structure StealthMetaAddress where
  spendPubkey : List Nat
  viewPubkey : List Nat
  deriving DecidableEq

structure StealthAddressKit where
  metaAddress : StealthMetaAddress
  spendPrivkey : List Nat
  viewPrivkey : List Nat
  deriving DecidableEq

structure StealthAddress where
  address : List Nat
  ephemeralPubkey : List Nat
  viewTag : Nat
  deriving DecidableEq

structure StealthAnnouncement where
  ephemeralPubkey : List Nat
  stealthAddress : List Nat
  viewTag : Nat
  timestamp : Nat
  deriving DecidableEq

/-- stealth.ts generateStealthMetaAddress, derandomized over the two
32-byte seeds drawn by randomBytes. -/
def generateStealthMetaAddress (spendPrivkey viewPrivkey : List Nat) :
    StealthAddressKit :=
  { metaAddress :=
      { spendPubkey := ed25519GetPublicKey spendPrivkey,
        viewPubkey := ed25519GetPublicKey viewPrivkey },
    spendPrivkey := spendPrivkey,
    viewPrivkey := viewPrivkey }

/-- stealth.ts computeSharedSecret: sha256 of the 64-byte concatenation
privkey (first 32 bytes) then pubkey (next 32 bytes). -/
def computeSharedSecret (privkey pubkey : List Nat) : List Nat :=
  sha256 (privkey ++ pubkey)

/-- stealth.ts computeViewTag: first byte of sha256 of the shared secret. -/
def computeViewTag (sharedSecret : List Nat) : Nat :=
  (sha256 sharedSecret).getD 0 0

/-- stealth.ts computeStealthPubkey: byte-wise XOR of the spend public
key with sha256 of the shared secret. -/
def computeStealthPubkey (spendPubkey sharedSecret : List Nat) : List Nat :=
  List.zipWith (fun a b => a ^^^ b) spendPubkey (sha256 sharedSecret)

/-- stealth.ts deriveStealthPrivateKey inner loop: big-endian byte-wise
addition from index 31 down to 0; each byte is sum & 0xff and the carry
is sum >> 8; the carry out of byte 0 is dropped. -/
def addBytesBE (a b : List Nat) : List Nat × Nat :=
  (a.zip b).foldr
    (fun p st => (((p.1 + p.2 + st.2) &&& 255) :: st.1, (p.1 + p.2 + st.2) >>> 8))
    ([], 0)

/-- stealth.ts deriveStealthPrivateKey. -/
def deriveStealthPrivateKey (spendPrivkey sharedSecret : List Nat) : List Nat :=
  (addBytesBE spendPrivkey (sha256 sharedSecret)).1

/-- stealth.ts generateStealthAddress, derandomized over the ephemeral
private key drawn by randomBytes. -/
def generateStealthAddress (metaAddress : StealthMetaAddress)
    (ephemeralPrivkey : List Nat) : StealthAddress :=
  let ephemeralPubkey := ed25519GetPublicKey ephemeralPrivkey
  let sharedSecret := computeSharedSecret ephemeralPrivkey metaAddress.viewPubkey
  { address := computeStealthPubkey metaAddress.spendPubkey sharedSecret,
    ephemeralPubkey := ephemeralPubkey,
    viewTag := computeViewTag sharedSecret }

/-- stealth.ts scanAnnouncements: per announcement, recompute the shared
secret from the view private key and the ephemeral public key, drop the
announcement unless the view tag and then the full stealth address
match, and derive the stealth private key for survivors. -/
def scanAnnouncements (kit : StealthAddressKit)
    (announcements : List StealthAnnouncement) :
    List (StealthAnnouncement × List Nat) :=
  announcements.filterMap fun a =>
    let sharedSecret := computeSharedSecret kit.viewPrivkey a.ephemeralPubkey
    if computeViewTag sharedSecret ≠ a.viewTag then none
    else if computeStealthPubkey kit.metaAddress.spendPubkey sharedSecret ≠
        a.stealthAddress then none
    else some (a, deriveStealthPrivateKey kit.spendPrivkey sharedSecret)

/-- Concrete 32-byte seeds used to exercise the stealth protocol. -/
def spendSeedC : List Nat :=
  [1, 2, 3, 4, 5, 6, 7, 8, 9, 10, 11, 12, 13, 14, 15, 16, 17, 18, 19, 20,
   21, 22, 23, 24, 25, 26, 27, 28, 29, 30, 31, 32]

def viewSeedC : List Nat :=
  [33, 34, 35, 36, 37, 38, 39, 40, 41, 42, 43, 44, 45, 46, 47, 48, 49, 50,
   51, 52, 53, 54, 55, 56, 57, 58, 59, 60, 61, 62, 63, 64]

def ephSeedC : List Nat :=
  [65, 66, 67, 68, 69, 70, 71, 72, 73, 74, 75, 76, 77, 78, 79, 80, 81, 82,
   83, 84, 85, 86, 87, 88, 89, 90, 91, 92, 93, 94, 95, 96]

/-- A receiver kit exactly as generateStealthMetaAddress builds it. -/
def kitC : StealthAddressKit := generateStealthMetaAddress spendSeedC viewSeedC

/-- The sender-side stealth address for kitC's meta-address. -/
def stealthC : StealthAddress := generateStealthAddress kitC.metaAddress ephSeedC

/-- The announcement the sender publishes for stealthC. -/
def announcementC : StealthAnnouncement :=
  { ephemeralPubkey := stealthC.ephemeralPubkey,
    stealthAddress := stealthC.address,
    viewTag := stealthC.viewTag,
    timestamp := 0 }

/-! ## Hashing utilities (sdk/src/utils.ts)

poseidonHash at runtime uses circomlibjs when available and otherwise
falls back to the in-repository simplifiedPoseidon; the Merkle
definitions below are parametric in the two-input hash and the
fallback is embedded concretely. -/

def FIELD_MODULUS : Nat :=
  21888242871839275222246405745257275088548364400416034343698204186575808495617

/-- utils.ts simplifiedPoseidon: concatenate the 32-byte big-endian
encodings of the inputs, SHA-256, reduce into the field. -/
def simplifiedPoseidon (inputs : List Nat) : Nat :=
  bufferToBigInt (sha256 (inputs.map (fun i => bigIntToBuffer i 32)).flatten) % FIELD_MODULUS

/-- The fallback hash applied to two inputs, as the Merkle tree applies
poseidonHash to the pair of children. -/
def sPoseidon2 (a b : Nat) : Nat := simplifiedPoseidon [a, b]

/-! ## Merkle tree (sdk/src/utils.ts MerkleTree)

The mutable class state is the pair (levels, leaves); layers and
zeroValues are recomputed from it exactly as rebuildTree and
initZeroValues do.  The hash combining two children is a parameter H. -/

structure MerkleTreeState where
  levels : Nat
  leaves : List Nat
  deriving DecidableEq

/-- initZeroValues: zeroValues[0] = 0 and
zeroValues[i+1] = zeroValues[i] * 2 + (i + 1). -/
def zeroValue : Nat → Nat
  | 0 => 0
  | i + 1 => zeroValue i * 2 + (i + 1)

/-- getZeroValue: index into the zeroValues array (levels + 1 entries),
defaulting to 0 out of range. -/
def getZeroValue (levels level : Nat) : Nat :=
  (((List.range (levels + 1)).map zeroValue).getD level 0)

/-- rebuildTree padding of layer 0 to 2 ^ levels leaves with
getZeroValue 0. -/
def paddedLeaves (levels : Nat) (leaves : List Nat) : List Nat :=
  leaves ++ List.replicate (2 ^ levels - leaves.length) (getZeroValue levels 0)

/-- One rebuildTree layer step: hash elements two at a time; a missing
right child falls back to the level's zero value. -/
def pairUp (H : Nat → Nat → Nat) (z : Nat) : List Nat → List Nat
  | [] => []
  | [a] => [H a z]
  | a :: b :: rest => H a b :: pairUp H z rest

/-- Layer l of the rebuilt tree: layer 0 is the padded leaves, layer
l+1 pairs up layer l. -/
def nthLayer (H : Nat → Nat → Nat) (levels : Nat) (leaves : List Nat) : Nat → List Nat
  | 0 => paddedLeaves levels leaves
  | l + 1 => pairUp H (getZeroValue levels l) (nthLayer H levels leaves l)

/-- The root getter: entry 0 of the top layer. -/
def treeRoot (H : Nat → Nat → Nat) (s : MerkleTreeState) : Nat :=
  (nthLayer H s.levels s.leaves s.levels).getD 0 0

structure MerkleProof where
  root : Nat
  pathElements : List Nat
  pathIndices : List Nat
  leaf : Nat
  leafIndex : Nat
  deriving DecidableEq

/-- The getProof loop over levels: at each level record the sibling
(with the level's zero value when absent) and the direction bit
(0 when the current node is a left child, 1 when it is a right child),
then halve the index. -/
def proofPathsGo (H : Nat → Nat → Nat) (levels : Nat) (leaves : List Nat) :
    Nat → Nat → Nat → List Nat × List Nat
  | 0, _, _ => ([], [])
  | r + 1, level, currentIndex =>
    let isLeft := currentIndex % 2 = 0
    let siblingIndex := if isLeft then currentIndex + 1 else currentIndex - 1
    let sibling := (nthLayer H levels leaves level).getD siblingIndex
      (getZeroValue levels level)
    let rest := proofPathsGo H levels leaves r (level + 1) (currentIndex / 2)
    (sibling :: rest.1, (if isLeft then 0 else 1) :: rest.2)

/-- MerkleTree.getProof for an in-range leaf index. -/
def getProofData (H : Nat → Nat → Nat) (s : MerkleTreeState) (leafIndex : Nat) :
    MerkleProof :=
  let paths := proofPathsGo H s.levels s.leaves s.levels 0 leafIndex
  { root := treeRoot H s,
    pathElements := paths.1,
    pathIndices := paths.2,
    leaf := s.leaves.getD leafIndex 0,
    leafIndex := leafIndex }

/-- MerkleTree.getProof including its out-of-bounds check. -/
def getProof (H : Nat → Nat → Nat) (s : MerkleTreeState) (leafIndex : Nat) :
    Except String MerkleProof :=
  if leafIndex < s.leaves.length then .ok (getProofData H s leafIndex)
  else .error "Leaf index out of bounds"

/-- The verifyMerkleProof loop: fold the hash chain over pathElements,
ordering the pair by the matching pathIndices entry; a missing entry
compares unequal to 0, which selects the (element, current) order. -/
def verifyChain (H : Nat → Nat → Nat) :
    Nat → List Nat → List Nat → Nat
  | cur, [], _ => cur
  | cur, e :: es, idxs =>
    let cur' := if idxs.head? = some 0 then H cur e else H e cur
    verifyChain H cur' es idxs.tail

/-- verifyMerkleProof: recompute the chain from the leaf and compare to
the stated root. -/
def verifyMerkleProof (H : Nat → Nat → Nat) (proof : MerkleProof) : Bool :=
  verifyChain H proof.leaf proof.pathElements proof.pathIndices = proof.root

/-- MerkleTree.insert: the new index is the current leaf count; a full
tree (index at or above 2 ^ levels) throws before any mutation;
otherwise the commitment is appended (and the layers rebuilt, which the
derived layer functions reflect) and the index returned. -/
def MerkleTree.insert (s : MerkleTreeState) (commitment : Nat) :
    Except String (MerkleTreeState × Nat) :=
  let index := s.leaves.length
  if 2 ^ s.levels ≤ index then .error "Tree is full"
  else .ok ({ s with leaves := s.leaves ++ [commitment] }, index)

/-! ## Commitments and deposit notes (sdk/src/commitment.ts)

poseidonHash on two inputs is the parameter H throughout. -/

structure Deposit where
  secret : Nat
  nullifier : Nat
  commitment : Nat
  nullifierHash : Nat
  leafIndex : Option Nat
  deriving DecidableEq

/-- commitment.ts computeCommitment. -/
def computeCommitment (H : Nat → Nat → Nat) (secret nullifier : Nat) : Nat :=
  H secret nullifier

/-- commitment.ts generateNullifierHash. -/
def generateNullifierHash (H : Nat → Nat → Nat) (nullifier leafIndex : Nat) : Nat :=
  H nullifier leafIndex

/-- commitment.ts createDeposit: the nullifier hash binds leafIndex when
supplied and 0 otherwise (leafIndex ?? 0). -/
def createDeposit (H : Nat → Nat → Nat) (secret nullifier : Nat)
    (leafIndex : Option Nat) : Deposit :=
  { secret := secret,
    nullifier := nullifier,
    commitment := computeCommitment H secret nullifier,
    nullifierHash := generateNullifierHash H nullifier (leafIndex.getD 0),
    leafIndex := leafIndex }

/-- commitment.ts generateCommitment, derandomized over the two 31-byte
strings drawn by randomBytes; the returned record has no leafIndex and
its nullifierHash is poseidonHash(nullifier, 0). -/
def generateCommitment (H : Nat → Nat → Nat)
    (secretBytes nullifierBytes : List Nat) : Deposit :=
  let secret := bufferToBigInt secretBytes
  let nullifier := bufferToBigInt nullifierBytes
  { secret := secret,
    nullifier := nullifier,
    commitment := H secret nullifier,
    nullifierHash := H nullifier 0,
    leafIndex := none }

/-! ### Deposit note serialization

The JSON text layer is modelled structurally: a serialized note is the
record of the string values JSON.stringify would emit (a field holds
none when the key is absent), with strings as lists of character
codes.  JSON.stringify and JSON.parse are mutually inverse on such
records, so the record itself stands for the note string. -/

structure DepositWire where
  secret : Option (List Nat)
  nullifier : Option (List Nat)
  commitment : Option (List Nat)
  nullifierHash : Option (List Nat)
  leafIndex : Option Nat
  deriving DecidableEq

/-- Decimal digits of n, least-significant first, fuel-driven. -/
def decDigitsGo : Nat → Nat → List Nat
  | 0, _ => []
  | fuel + 1, n => if n = 0 then [] else n % 10 :: decDigitsGo fuel (n / 10)

/-- JS BigInt.prototype.toString: big-endian decimal digit characters;
zero prints as the single character 0. -/
def natToDecString (n : Nat) : List Nat :=
  if n = 0 then [48] else (decDigitsGo n n).reverse.map (fun d => 48 + d)

/-- The ECMAScript whitespace and line-terminator code points that
StringToBigInt trims, restricted to those representable in the
byte-string model (tab, LF, VT, FF, CR, space, NBSP). -/
def isJsWhitespace (c : Nat) : Bool :=
  c = 9 || c = 10 || c = 11 || c = 12 || c = 13 || c = 32 || c = 160

/-- ECMAScript TrimString: remove leading and trailing whitespace. -/
def jsTrim (s : List Nat) : List Nat :=
  ((s.dropWhile fun c => isJsWhitespace c).reverse.dropWhile
    fun c => isJsWhitespace c).reverse

def decDigitVal (c : Nat) : Option Nat :=
  if 48 ≤ c ∧ c ≤ 57 then some (c - 48) else none

def hexDigitVal (c : Nat) : Option Nat :=
  if 48 ≤ c ∧ c ≤ 57 then some (c - 48)
  else if 97 ≤ c ∧ c ≤ 102 then some (c - 87)
  else if 65 ≤ c ∧ c ≤ 70 then some (c - 55)
  else none

def octDigitVal (c : Nat) : Option Nat :=
  if 48 ≤ c ∧ c ≤ 55 then some (c - 48) else none

def binDigitVal (c : Nat) : Option Nat :=
  if c = 48 ∨ c = 49 then some (c - 48) else none

/-- Digits of a radix literal: at least one character, every character a
digit of the radix, most significant first. -/
def parseDigits (base : Nat) (dv : Nat → Option Nat) (l : List Nat) : Option Nat :=
  match l with
  | [] => none
  | _ =>
    l.foldl (fun acc c => acc.bind fun a => (dv c).map fun d => base * a + d)
      (some 0)

/-- ECMAScript StringToBigInt, which is what JS Bigint(string)
evaluates: trim whitespace; an empty remainder means 0; a 0x, 0o or 0b
prefix (either case) introduces an unsigned hex, octal or binary
literal; otherwise an optional single sign precedes at least one
decimal digit; any other shape throws (none).  Decimal points,
exponents and signed radix literals are all rejected, as in JS. -/
def stringToBigInt (s : List Nat) : Option Int :=
  match jsTrim s with
  | [] => some 0
  | c :: rest =>
    if c = 48 ∧ (rest.head? = some 120 ∨ rest.head? = some 88) then
      (parseDigits 16 hexDigitVal rest.tail).map Int.ofNat
    else if c = 48 ∧ (rest.head? = some 111 ∨ rest.head? = some 79) then
      (parseDigits 8 octDigitVal rest.tail).map Int.ofNat
    else if c = 48 ∧ (rest.head? = some 98 ∨ rest.head? = some 66) then
      (parseDigits 2 binDigitVal rest.tail).map Int.ofNat
    else if c = 43 then (parseDigits 10 decDigitVal rest).map Int.ofNat
    else if c = 45 then (parseDigits 10 decDigitVal rest).map fun n => -(n : Int)
    else (parseDigits 10 decDigitVal (c :: rest)).map Int.ofNat

/-- commitment.ts serializeDeposit: the four bigint fields as decimal
strings plus the optional leafIndex number (the key is dropped by
JSON.stringify when leafIndex is undefined). -/
def serializeDeposit (d : Deposit) : DepositWire :=
  { secret := some (natToDecString d.secret),
    nullifier := some (natToDecString d.nullifier),
    commitment := some (natToDecString d.commitment),
    nullifierHash := some (natToDecString d.nullifierHash),
    leafIndex := d.leafIndex }

/-- commitment.ts deserializeDeposit: BigInt() each of the four string
fields (a missing field, or a string StringToBigInt rejects, makes
BigInt throw, which rejects the note) and pass leafIndex through.
Every note serializeDeposit emits parses to a non-negative value, and
the Nat-valued Deposit model takes that value via Int.toNat. -/
def deserializeDeposit (w : DepositWire) : Except String Deposit :=
  match w.secret, w.nullifier, w.commitment, w.nullifierHash with
  | some s, some n, some c, some nh =>
    match stringToBigInt s, stringToBigInt n, stringToBigInt c, stringToBigInt nh with
    | some s', some n', some c', some nh' =>
      .ok { secret := s'.toNat, nullifier := n'.toNat, commitment := c'.toNat,
            nullifierHash := nh'.toNat, leafIndex := w.leafIndex }
    | _, _, _, _ => .error "Cannot convert string to a BigInt"
  | _, _, _, _ => .error "Cannot convert undefined to a BigInt"

/-! ## Groth16 proof byte serialization (sdk/src/types.ts)

Coordinate strings are modelled by their numeric values; the constant
third projective coordinates that proofToBytes ignores and bytesToProof
re-emits are not part of the record. -/

structure Groth16Proof where
  pi_a : Nat × Nat
  pi_b : (Nat × Nat) × (Nat × Nat)
  pi_c : Nat × Nat
  deriving DecidableEq

structure ProofBytes where
  piA : List Nat
  piB : List Nat
  piC : List Nat
  deriving DecidableEq

/-- types.ts proofToBytes: 32-byte big-endian coordinates; the G2 point
pi_b is written with the two sub-coordinates of each coordinate swapped,
in the order x1, x0, y1, y0, for the on-chain verifier. -/
def proofToBytes (p : Groth16Proof) : ProofBytes :=
  { piA := bigIntToBuffer p.pi_a.1 32 ++ bigIntToBuffer p.pi_a.2 32,
    piB := bigIntToBuffer p.pi_b.1.2 32 ++ bigIntToBuffer p.pi_b.1.1 32 ++
           bigIntToBuffer p.pi_b.2.2 32 ++ bigIntToBuffer p.pi_b.2.1 32,
    piC := bigIntToBuffer p.pi_c.1 32 ++ bigIntToBuffer p.pi_c.2 32 }

/-- types.ts bytesToProof: read the four pi_b 32-byte slices back in
order as x0, x1, y0, y1 (no swap). -/
def bytesToProof (b : ProofBytes) : Groth16Proof :=
  { pi_a := (bufferToBigInt (b.piA.take 32), bufferToBigInt ((b.piA.drop 32).take 32)),
    pi_b := ((bufferToBigInt (b.piB.take 32), bufferToBigInt ((b.piB.drop 32).take 32)),
             (bufferToBigInt ((b.piB.drop 64).take 32), bufferToBigInt ((b.piB.drop 96).take 32))),
    pi_c := (bufferToBigInt (b.piC.take 32), bufferToBigInt ((b.piC.drop 32).take 32)) }

/-! ## The Withdraw circuit (circuits, compiled instance Withdraw(20))

The circuit is a constraint system over the proving field; it is
embedded parametrically in a commutative ring F and the Poseidon2
template is the parameter H.  Signals assigned with the circom operator
that both assigns and constrains are uniquely determined, so the
constraint system is the conjunction below; the squared
recipient/relayer/fee signals only bind those public inputs into the
proof and relate no inputs to each other, so they add no conjunct. -/

/-- merkleTree.circom DualMux output 0: s = 0 selects in0. -/
def dualMuxOut0 {F : Type} [CommRing F] (in0 in1 s : F) : F :=
  (in1 - in0) * s + in0

/-- merkleTree.circom DualMux output 1: s = 0 selects in1. -/
def dualMuxOut1 {F : Type} [CommRing F] (in0 in1 s : F) : F :=
  (in0 - in1) * s + in1

/-- MerkleTreeChecker hash chain: level i hashes the running value and
pathElements[i] in the order selected by pathIndices[i]. -/
def merkleChain {F : Type} [CommRing F] (H : F → F → F) :
    F → List (F × F) → F
  | cur, [] => cur
  | cur, es :: rest =>
    merkleChain H (H (dualMuxOut0 cur es.1 es.2) (dualMuxOut1 cur es.1 es.2)) rest

/-- The Withdraw leaf-index accumulator
reconstructedIndex[i+1] = reconstructedIndex[i] + pathIndices[i] * 2^i,
written as the equal direct sum over the remaining bits. -/
def leafIndexFromBits {F : Type} [CommRing F] : Nat → List F → F
  | _, [] => 0
  | i, s :: rest => s * 2 ^ i + leafIndexFromBits (i + 1) rest

/-- The little-endian value of a list of 0/1 naturals. -/
def natOfBitsLE : List Nat → Nat
  | [] => 0
  | b :: rest => b + 2 * natOfBitsLE rest

structure WithdrawAssignment (F : Type) where
  root : F
  nullifierHash : F
  recipient : F
  relayer : F
  fee : F
  secret : F
  nullifier : F
  pathElements : List F
  pathIndices : List F

/-- Satisfaction of the Withdraw(levels) constraint system: array
lengths match the instance size; each DualMux enforces
s * (1 - s) = 0 on its pathIndices entry; the hash chain from the
commitment leaf H(secret, nullifier) must equal the public root; and
the public nullifierHash must equal H(nullifier, reconstructed leaf
index). -/
def WithdrawSat {F : Type} [CommRing F] (H : F → F → F) (levels : Nat)
    (a : WithdrawAssignment F) : Prop :=
  a.pathElements.length = levels ∧
  a.pathIndices.length = levels ∧
  (∀ s ∈ a.pathIndices, s * (1 - s) = 0) ∧
  a.root = merkleChain H (H a.secret a.nullifier) (a.pathElements.zip a.pathIndices) ∧
  a.nullifierHash = H a.nullifier (leafIndexFromBits 0 a.pathIndices)

/-- Two-sided injectivity of a two-input hash: no collisions at all.
Satisfiable over Nat (for instance by Nat.pair). -/
def pairInj (H : Nat → Nat → Nat) : Prop :=
  ∀ a b a' b', H a b = H a' b' → a = a' ∧ b = b'

/-- A depth-1 tree holding two equal leaves, used to exercise the
verifier on a flipped direction bit. -/
def treeCE : MerkleTreeState := { levels := 1, leaves := [5, 5] }

/-- Thirty-two bytes of 0xff: a spend private key at the top of the byte range. -/
def spendFF : List Nat := List.replicate 32 255

/-- The all-zero 32-byte shared secret. -/
def ssZero : List Nat := List.replicate 32 0

/-- A small hash over ZMod 11 used to instantiate the circuit lemmas. -/
def hashW : ZMod 11 → ZMod 11 → ZMod 11 := fun a b => a * b + 1

/-- A concrete satisfying Withdraw assignment at depth 1 over ZMod 11. -/
def assignW : WithdrawAssignment (ZMod 11) :=
  { root := 7, nullifierHash := 4, recipient := 0, relayer := 0, fee := 0,
    secret := 2, nullifier := 3, pathElements := [4], pathIndices := [1] }

/-- A three-leaf depth-2 tree for exercising getProof paths. -/
def treeW : MerkleTreeState := { levels := 2, leaves := [10, 20, 30] }

/-! # Theorems

General byte-conversion lemmas first, then the claims. -/

theorem shiftLeft8_or_eq (x y : Nat) (hy : y < 256) :
    (x <<< 8) ||| y = 256 * x + y := by
  rw [Nat.shiftLeft_eq, Nat.mul_comm, ← Nat.mul_add_lt_is_or (by omega : y < 2 ^ 8) x]

theorem bufferToBigInt_append_singleton (l : List Nat) (b : Nat) :
    bufferToBigInt (l ++ [b]) = (bufferToBigInt l <<< 8) ||| b := by
  simp [bufferToBigInt, List.foldl_append]

theorem bigIntToBuffer_length : ∀ (n v : Nat), (bigIntToBuffer v n).length = n
  | 0, _ => rfl
  | n + 1, v => by simp [bigIntToBuffer, bigIntToBuffer_length n]

/-- Writing v into n big-endian bytes and reading it back recovers
v modulo 256 ^ n. -/
theorem bufferToBigInt_bigIntToBuffer :
    ∀ (n v : Nat), bufferToBigInt (bigIntToBuffer v n) = v % 256 ^ n
  | 0, v => by simp [bigIntToBuffer, bufferToBigInt, Nat.mod_one]
  | n + 1, v => by
    rw [bigIntToBuffer, bufferToBigInt_append_singleton,
      bufferToBigInt_bigIntToBuffer n]
    have hm : v &&& 255 = v % 256 := Nat.and_pow_two_sub_one_eq_mod v 8
    rw [hm, shiftLeft8_or_eq _ _ (by omega), Nat.shiftRight_eq_div_pow]
    have h8 : (2 : Nat) ^ 8 = 256 := by norm_num
    have hp : (256 : Nat) ^ (n + 1) = 256 * 256 ^ n := by ring
    rw [h8, hp, Nat.mod_mul]
    omega

theorem bufferToBigInt_bigIntToBuffer32 (v : Nat) (h : v < 2 ^ 256) :
    bufferToBigInt (bigIntToBuffer v 32) = v := by
  rw [bufferToBigInt_bigIntToBuffer 32 v, Nat.mod_eq_of_lt]
  calc v < 2 ^ 256 := h
    _ = 256 ^ 32 := by norm_num

theorem take32_append (a rest : List Nat) (ha : a.length = 32) :
    (a ++ rest).take 32 = a := List.take_left' ha

theorem drop32_append (a rest : List Nat) (ha : a.length = 32) :
    (a ++ rest).drop 32 = rest := List.drop_left' ha

theorem take32_self (a : List Nat) (ha : a.length = 32) : a.take 32 = a := by
  rw [← ha, List.take_length]

theorem drop64_eq (l : List Nat) : l.drop 64 = (l.drop 32).drop 32 := by
  rw [List.drop_drop]

theorem drop96_eq (l : List Nat) : l.drop 96 = ((l.drop 32).drop 32).drop 32 := by
  rw [List.drop_drop, List.drop_drop]

/-- C9 round trip: pi_a and pi_c come back unchanged while each pi_b
coordinate pair comes back with its two sub-coordinates swapped, because
bytesToProof reads the 32-byte slices of piB in unswapped order. -/
theorem shadow_c9_proof_bytes_roundtrip (p : Groth16Proof)
    (h1 : p.pi_a.1 < 2 ^ 256) (h2 : p.pi_a.2 < 2 ^ 256)
    (h3 : p.pi_b.1.1 < 2 ^ 256) (h4 : p.pi_b.1.2 < 2 ^ 256)
    (h5 : p.pi_b.2.1 < 2 ^ 256) (h6 : p.pi_b.2.2 < 2 ^ 256)
    (h7 : p.pi_c.1 < 2 ^ 256) (h8 : p.pi_c.2 < 2 ^ 256) :
    bytesToProof (proofToBytes p) =
      { pi_a := p.pi_a,
        pi_b := ((p.pi_b.1.2, p.pi_b.1.1), (p.pi_b.2.2, p.pi_b.2.1)),
        pi_c := p.pi_c } := by
  have len : ∀ v : Nat, (bigIntToBuffer v 32).length = 32 :=
    fun v => bigIntToBuffer_length 32 v
  unfold proofToBytes bytesToProof
  simp only [drop64_eq, drop96_eq, List.append_assoc]
  simp only [take32_append, drop32_append, take32_self, bigIntToBuffer_length]
  rw [bufferToBigInt_bigIntToBuffer32 _ h1, bufferToBigInt_bigIntToBuffer32 _ h2,
    bufferToBigInt_bigIntToBuffer32 _ h3, bufferToBigInt_bigIntToBuffer32 _ h4,
    bufferToBigInt_bigIntToBuffer32 _ h5, bufferToBigInt_bigIntToBuffer32 _ h6,
    bufferToBigInt_bigIntToBuffer32 _ h7, bufferToBigInt_bigIntToBuffer32 _ h8]

/-- C9 witness at a concrete proof. -/
theorem shadow_c9_witness :
    (1 : Nat) < 2 ^ 256 ∧
    bytesToProof (proofToBytes
        { pi_a := (1, 2), pi_b := ((3, 4), (5, 6)), pi_c := (7, 8) }) =
      { pi_a := (1, 2), pi_b := ((4, 3), (6, 5)), pi_c := (7, 8) } :=
  ⟨by norm_num,
   shadow_c9_proof_bytes_roundtrip
     { pi_a := (1, 2), pi_b := ((3, 4), (5, 6)), pi_c := (7, 8) }
     (by norm_num) (by norm_num) (by norm_num) (by norm_num)
     (by norm_num) (by norm_num) (by norm_num) (by norm_num)⟩

/-- C7: insert appends the commitment at the next free index (the leaf
count before the call) and returns that index; it fails exactly when
the tree already holds 2 ^ levels leaves, and the failing branch throws
before touching the leaf list, so no state change accompanies the
error. -/
theorem shadow_c7_insert (s : MerkleTreeState) (c : Nat) :
    (s.leaves.length < 2 ^ s.levels →
      MerkleTree.insert s c =
        .ok ({ levels := s.levels, leaves := s.leaves ++ [c] }, s.leaves.length)) ∧
    (2 ^ s.levels ≤ s.leaves.length → MerkleTree.insert s c = .error "Tree is full") := by
  constructor <;> intro h
  · unfold MerkleTree.insert
    rw [if_neg (by omega)]
  · unfold MerkleTree.insert
    rw [if_pos h]

/-- C7 witness: one successful insert and one full-tree failure. -/
theorem shadow_c7_insert_witness :
    ((2 : Nat) < 2 ^ 2 ∧
      MerkleTree.insert { levels := 2, leaves := [4, 5] } 6 =
        .ok ({ levels := 2, leaves := [4, 5, 6] }, 2)) ∧
    (2 ^ 1 ≤ (2 : Nat) ∧
      MerkleTree.insert { levels := 1, leaves := [7, 8] } 9 = .error "Tree is full") :=
  ⟨⟨by norm_num, (shadow_c7_insert { levels := 2, leaves := [4, 5] } 6).1 (by norm_num)⟩,
   ⟨by norm_num, (shadow_c7_insert { levels := 1, leaves := [7, 8] } 9).2 (by norm_num)⟩⟩

/-- C10: generateCommitment and leafIndex-less createDeposit fill
nullifierHash with the placeholder H(nullifier, 0), which differs from
the withdrawal hash H(nullifier, i) for every nonzero leaf index i as
long as H does not collide in its second argument. -/
theorem shadow_c10_placeholder_nullifier_hash (H : Nat → Nat → Nat)
    (hinj : ∀ a b b', H a b = H a b' → b = b')
    (secret nullifier i : Nat) (hi : i ≠ 0)
    (secretBytes nullifierBytes : List Nat) :
    (generateCommitment H secretBytes nullifierBytes).nullifierHash =
      H (bufferToBigInt nullifierBytes) 0 ∧
    (createDeposit H secret nullifier none).nullifierHash = H nullifier 0 ∧
    (createDeposit H secret nullifier none).nullifierHash ≠ H nullifier i := by
  refine ⟨rfl, rfl, fun h => hi ?_⟩
  exact (hinj nullifier 0 i h).symm

/-- C10 witness with the injective pairing hash. -/
theorem shadow_c10_witness :
    (3 : Nat) ≠ 0 ∧
    (createDeposit Nat.pair 1 2 none).nullifierHash = Nat.pair 2 0 ∧
    (createDeposit Nat.pair 1 2 none).nullifierHash ≠ Nat.pair 2 3 := by
  have h := shadow_c10_placeholder_nullifier_hash Nat.pair
    (fun a b b' hab => (Nat.pair_eq_pair.mp hab).2) 1 2 3 (by norm_num) [] []
  exact ⟨by norm_num, h.2.1, h.2.2⟩

/-- C4: the zero values do start at 0, but level 1 is
2 * 0 + 1 = 1, which is not H(Z_0, Z_0) for the hash the layers use
(the in-repository fallback poseidonHash). -/
theorem shadow_c4_zero_values :
    getZeroValue 20 0 = 0 ∧ getZeroValue 20 1 = 1 ∧
    sPoseidon2 (getZeroValue 20 0) (getZeroValue 20 0) ≠ getZeroValue 20 1 := by
  decide

/-- C5: the stealth public key is the byte-wise XOR of the spend key
with sha256 of the shared secret: on a concrete meta-address it equals
the explicit XOR bytes, and applying the operation twice returns the
spend key unchanged, which no addition of a fixed nonidentity group
element can do. -/
theorem shadow_c5_stealth_pubkey_is_xor :
    computeStealthPubkey
      [0, 1, 2, 3, 4, 5, 6, 7, 8, 9, 10, 11, 12, 13, 14, 15, 16, 17, 18, 19,
       20, 21, 22, 23, 24, 25, 26, 27, 28, 29, 30, 31] ssZero =
      [102, 105, 120, 174, 252, 103, 187, 112, 100, 134, 203, 128, 130, 146,
       128, 47, 24, 134, 6, 150, 122, 247, 37, 164, 136, 51, 67, 6, 17, 66,
       55, 58] ∧
    computeStealthPubkey
      (computeStealthPubkey
        [0, 1, 2, 3, 4, 5, 6, 7, 8, 9, 10, 11, 12, 13, 14, 15, 16, 17, 18, 19,
         20, 21, 22, 23, 24, 25, 26, 27, 28, 29, 30, 31] ssZero) ssZero =
      [0, 1, 2, 3, 4, 5, 6, 7, 8, 9, 10, 11, 12, 13, 14, 15, 16, 17, 18, 19,
       20, 21, 22, 23, 24, 25, 26, 27, 28, 29, 30, 31] := by
  decide

/-- C6: the derived stealth private key is the byte-wise sum with the
final carry dropped, i.e. reduction modulo 2 ^ 256, which differs from
reduction modulo the ed25519 group order on a concrete input. -/
theorem shadow_c6_reduction_is_mod_2pow256 :
    bufferToBigInt (deriveStealthPrivateKey spendFF ssZero) =
      (bufferToBigInt spendFF + bufferToBigInt (sha256 ssZero)) % 2 ^ 256 ∧
    bufferToBigInt (deriveStealthPrivateKey spendFF ssZero) ≠
      (bufferToBigInt spendFF + bufferToBigInt (sha256 ssZero)) % ell25519 := by
  decide

/-- The sender-side and receiver-side shared secrets disagree: the two
hash-of-concatenation calls see different byte strings, so already the
view tags differ on the concrete payment. -/
theorem stealth_shared_secret_asymmetric :
    computeViewTag (computeSharedSecret ephSeedC kitC.metaAddress.viewPubkey) = 146 ∧
    computeViewTag (computeSharedSecret kitC.viewPrivkey stealthC.ephemeralPubkey) = 70 := by
  decide

/-- C1: scanning the very announcement produced for this kit's
meta-address returns no match at all. -/
theorem shadow_c1_scan_misses_own_payment :
    scanAnnouncements kitC [announcementC] = [] := by
  decide

theorem decDigitsGo_lt10 : ∀ (fuel n : Nat), ∀ d ∈ decDigitsGo fuel n, d < 10
  | 0, _ => by simp [decDigitsGo]
  | fuel + 1, n => by
    unfold decDigitsGo
    split
    · simp
    · intro d hd
      rcases List.mem_cons.mp hd with h | h
      · omega
      · exact decDigitsGo_lt10 fuel (n / 10) d h

theorem decDigitsGo_foldl : ∀ (fuel n : Nat), n ≤ fuel → ∀ a : Nat,
    ((decDigitsGo fuel n).reverse).foldl (fun x d => 10 * x + d) a =
      a * 10 ^ (decDigitsGo fuel n).length + n
  | 0, n => fun hn a => by
    have : n = 0 := by omega
    simp [decDigitsGo, this]
  | fuel + 1, n => fun hn a => by
    unfold decDigitsGo
    split
    · simp [*]
    · rename_i hn0
      have hrec := decDigitsGo_foldl fuel (n / 10) (by omega) a
      simp only [List.reverse_cons, List.foldl_append, hrec, List.length_cons,
        List.foldl_cons, List.foldl_nil, List.length_reverse]
      have hmod : 10 * (n / 10) + n % 10 = n := by omega
      ring_nf
      omega

theorem dropWhile_eq_self_of_not (p : Nat → Bool) :
    ∀ l : List Nat, (∀ c ∈ l, p c = false) → l.dropWhile p = l
  | [], _ => rfl
  | a :: l, h => by
    simp [List.dropWhile_cons, h a (List.mem_cons_self a l)]

theorem jsTrim_eq_self (s : List Nat)
    (h : ∀ c ∈ s, isJsWhitespace c = false) : jsTrim s = s := by
  unfold jsTrim
  rw [dropWhile_eq_self_of_not _ s h,
    dropWhile_eq_self_of_not _ s.reverse
      (fun c hc => h c (List.mem_reverse.mp hc))]
  exact List.reverse_reverse s

theorem natToDecString_chars (n : Nat) :
    ∀ c ∈ natToDecString n, 48 ≤ c ∧ c ≤ 57 := by
  unfold natToDecString
  by_cases h : n = 0
  · simp [h]
  · rw [if_neg h]
    intro c hc
    obtain ⟨d, hd, rfl⟩ := List.mem_map.mp hc
    have := decDigitsGo_lt10 n n d (List.mem_reverse.mp hd)
    omega

theorem digit_not_whitespace (c : Nat) (hc : 48 ≤ c ∧ c ≤ 57) :
    isJsWhitespace c = false := by
  simp only [isJsWhitespace, Bool.or_eq_false_iff, decide_eq_false_iff_not]
  omega

theorem decDigitsGo_ne_nil (n : Nat) (h : n ≠ 0) : decDigitsGo n n ≠ [] := by
  cases n with
  | zero => exact absurd rfl h
  | succ m =>
    unfold decDigitsGo
    rw [if_neg h]
    exact List.cons_ne_nil _ _

theorem parseDigits_cons (base : Nat) (dv : Nat → Option Nat) (c : Nat)
    (l : List Nat) :
    parseDigits base dv (c :: l) =
      (c :: l).foldl
        (fun acc ch => acc.bind fun a => (dv ch).map fun d => base * a + d)
        (some 0) := rfl

theorem parseDigits_decimal_fold :
    ∀ (ds : List Nat), (∀ d ∈ ds, d < 10) → ∀ a : Nat,
      (ds.map (fun d => 48 + d)).foldl
        (fun acc ch => acc.bind fun x => (decDigitVal ch).map fun d => 10 * x + d)
        (some a) =
      some (ds.foldl (fun x d => 10 * x + d) a)
  | [] => fun _ _ => rfl
  | d :: ds => fun hds a => by
    have hd : d < 10 := hds d (List.mem_cons_self d ds)
    have hv : decDigitVal (48 + d) = some d := by
      unfold decDigitVal
      rw [if_pos (by omega)]
      congr 1
      omega
    simp only [List.map_cons, List.foldl_cons, Option.bind_eq_bind,
      Option.some_bind, hv, Option.map_some']
    exact parseDigits_decimal_fold ds
      (fun x hx => hds x (List.mem_cons_of_mem d hx)) _

/-- StringToBigInt round-trips the decimal strings toString produces. -/
theorem stringToBigInt_natToDecString (n : Nat) :
    stringToBigInt (natToDecString n) = some (n : Int) := by
  by_cases h : n = 0
  · subst h
    decide
  · have hchars := natToDecString_chars n
    have hws : ∀ c ∈ natToDecString n, isJsWhitespace c = false :=
      fun c hc => digit_not_whitespace c (hchars c hc)
    have hform : natToDecString n =
        ((decDigitsGo n n).reverse).map (fun d => 48 + d) := by
      unfold natToDecString
      rw [if_neg h]
    unfold stringToBigInt
    rw [jsTrim_eq_self _ hws]
    cases hlist : natToDecString n with
    | nil =>
      exfalso
      apply decDigitsGo_ne_nil n h
      have := hform ▸ hlist
      simpa using this
    | cons c rest =>
      have hc : 48 ≤ c ∧ c ≤ 57 :=
        hchars c (hlist ▸ List.mem_cons_self c rest)
      have hrest : ∀ v ∈ rest, 48 ≤ v ∧ v ≤ 57 :=
        fun v hv => hchars v (hlist ▸ List.mem_cons_of_mem c hv)
      have hhead : ∀ v, rest.head? = some v → 48 ≤ v ∧ v ≤ 57 := by
        intro v hv
        cases rest with
        | nil => cases hv
        | cons r rs =>
          simp only [List.head?_cons, Option.some.injEq] at hv
          exact hv ▸ hrest r (List.mem_cons_self r rs)
      dsimp only
      rw [if_neg, if_neg, if_neg, if_neg, if_neg]
      · rw [parseDigits_cons, ← hlist, hform]
        rw [parseDigits_decimal_fold ((decDigitsGo n n).reverse)
          (fun d hd => decDigitsGo_lt10 n n d (List.mem_reverse.mp hd)) 0]
        rw [decDigitsGo_foldl n n (Nat.le_refl n) 0]
        simp
      · omega
      · omega
      · rintro ⟨-, hx | hx⟩ <;> have := hhead _ hx <;> omega
      · rintro ⟨-, hx | hx⟩ <;> have := hhead _ hx <;> omega
      · rintro ⟨-, hx | hx⟩ <;> have := hhead _ hx <;> omega

/-- StringToBigInt conformance on representative inputs: hex, octal and
binary prefixes, signs, surrounding whitespace and the empty string
succeed exactly as BigInt() does in JS, while non-numeric shapes,
digitless prefixes, signed radix literals and inner whitespace throw. -/
theorem stringToBigInt_js_examples :
    stringToBigInt [48, 120, 49, 48] = some 16 ∧
    stringToBigInt [48, 111, 55] = some 7 ∧
    stringToBigInt [48, 98, 49, 48, 49] = some 5 ∧
    stringToBigInt [45, 53] = some (-5) ∧
    stringToBigInt [43, 55] = some 7 ∧
    stringToBigInt [32, 49, 50, 32] = some 12 ∧
    stringToBigInt [] = some 0 ∧
    stringToBigInt [97, 98, 99] = none ∧
    stringToBigInt [49, 50, 46, 53] = none ∧
    stringToBigInt [48, 120] = none ∧
    stringToBigInt [45, 48, 120, 49, 48] = none ∧
    stringToBigInt [49, 32, 50] = none := by
  decide

/-- C8: deposit-note serialization is lossless on every deposit, and
deserialization fails when the secret field is missing or holds a
string that StringToBigInt rejects, i.e. one BigInt() throws on. -/
theorem shadow_c8_note_serialization :
    (∀ d : Deposit, deserializeDeposit (serializeDeposit d) = .ok d) ∧
    (∀ w : DepositWire, w.secret = none →
      deserializeDeposit w = .error "Cannot convert undefined to a BigInt") ∧
    (∀ (w : DepositWire) (str : List Nat),
      w.secret = some str → stringToBigInt str = none →
      ∀ d : Deposit, deserializeDeposit w ≠ .ok d) := by
  refine ⟨fun d => ?_, fun w h => ?_, fun w str hs hbad d => ?_⟩
  · show deserializeDeposit
      { secret := some (natToDecString d.secret),
        nullifier := some (natToDecString d.nullifier),
        commitment := some (natToDecString d.commitment),
        nullifierHash := some (natToDecString d.nullifierHash),
        leafIndex := d.leafIndex } = .ok d
    unfold deserializeDeposit
    simp only [stringToBigInt_natToDecString]
    simp [Int.toNat_natCast]
  · obtain ⟨se, nu, co, nh, li⟩ := w
    cases h
    rfl
  · obtain ⟨se, nu, co, nh, li⟩ := w
    cases hs
    unfold deserializeDeposit
    cases nu with
    | none => exact fun hcontra => by cases hcontra
    | some nus =>
      cases co with
      | none => exact fun hcontra => by cases hcontra
      | some cos =>
        cases nh with
        | none => exact fun hcontra => by cases hcontra
        | some nhs =>
          dsimp only
          rw [hbad]
          cases stringToBigInt nus <;> cases stringToBigInt cos <;>
            cases stringToBigInt nhs <;> exact fun hcontra => by cases hcontra

/-- C8 witness: a concrete round trip, a missing secret field, and a
secret string BigInt() throws on. -/
theorem shadow_c8_witness :
    deserializeDeposit (serializeDeposit
      { secret := 12345, nullifier := 678, commitment := 9, nullifierHash := 10,
        leafIndex := some 3 }) =
      .ok { secret := 12345, nullifier := 678, commitment := 9,
            nullifierHash := 10, leafIndex := some 3 } ∧
    deserializeDeposit
      { secret := none, nullifier := some [49], commitment := some [49],
        nullifierHash := some [49], leafIndex := none } =
      .error "Cannot convert undefined to a BigInt" ∧
    deserializeDeposit
      { secret := some [97, 98, 99], nullifier := some [49],
        commitment := some [49], nullifierHash := some [49],
        leafIndex := none } ≠
      .ok { secret := 0, nullifier := 1, commitment := 1, nullifierHash := 1,
            leafIndex := none } :=
  ⟨shadow_c8_note_serialization.1 _,
   shadow_c8_note_serialization.2.1 _ rfl,
   shadow_c8_note_serialization.2.2 _ [97, 98, 99] rfl (by decide) _⟩

theorem getD_default_eq (l : List Nat) (n : Nat) (h : n < l.length) (d d' : Nat) :
    l.getD n d = l.getD n d' := by
  simp [List.getD, List.getElem?_eq_getElem h]

theorem getD_append_left (l l' : List Nat) (n : Nat) (h : n < l.length) (d : Nat) :
    (l ++ l').getD n d = l.getD n d := by
  simp [List.getD, List.getElem?_append_left h]

theorem pairUp_length (H : Nat → Nat → Nat) (z : Nat) :
    ∀ l : List Nat, (pairUp H z l).length = (l.length + 1) / 2
  | [] => rfl
  | [_] => by simp [pairUp]
  | _ :: _ :: rest => by
    simp only [pairUp, List.length_cons, pairUp_length H z rest]
    omega

theorem pairUp_getD (H : Nat → Nat → Nat) (z : Nat) :
    ∀ (l : List Nat) (j : Nat), 2 * j + 1 < l.length →
      (pairUp H z l).getD j 0 = H (l.getD (2 * j) 0) (l.getD (2 * j + 1) 0)
  | [], j, h => by simp at h
  | [_], j, h => by simp at h
  | _ :: _ :: _, 0, _ => rfl
  | a :: b :: rest, j + 1, h => by
    have h' : 2 * j + 1 < rest.length := by
      simp only [List.length_cons] at h
      omega
    have e1 : 2 * (j + 1) = 2 * j + 1 + 1 := by ring
    have e2 : 2 * (j + 1) + 1 = 2 * j + 1 + 1 + 1 := by ring
    simp only [pairUp, List.getD, e1, e2, List.getElem?_cons_succ]
    exact pairUp_getD H z rest j h'

theorem paddedLeaves_length (levels : Nat) (leaves : List Nat)
    (h : leaves.length ≤ 2 ^ levels) :
    (paddedLeaves levels leaves).length = 2 ^ levels := by
  simp only [paddedLeaves, List.length_append, List.length_replicate]
  omega

theorem nthLayer_length (H : Nat → Nat → Nat) (levels : Nat) (leaves : List Nat)
    (hcap : leaves.length ≤ 2 ^ levels) :
    ∀ l, l ≤ levels → (nthLayer H levels leaves l).length = 2 ^ (levels - l)
  | 0 => fun _ => by
    simpa [nthLayer] using paddedLeaves_length levels leaves hcap
  | l + 1 => fun hl => by
    simp only [nthLayer, pairUp_length]
    rw [nthLayer_length H levels leaves hcap l (by omega)]
    have he : levels - l = (levels - (l + 1)) + 1 := by omega
    rw [he, pow_succ]
    omega

/-- The hash chain recomputed from the getProof path at any level and
in-range node index reaches the stored root. -/
theorem verify_chain_layers (H : Nat → Nat → Nat) (levels : Nat)
    (leaves : List Nat) (hcap : leaves.length ≤ 2 ^ levels) :
    ∀ (r level idx : Nat), level + r = levels → idx < 2 ^ r →
      verifyChain H ((nthLayer H levels leaves level).getD idx 0)
        (proofPathsGo H levels leaves r level idx).1
        (proofPathsGo H levels leaves r level idx).2 =
      (nthLayer H levels leaves levels).getD 0 0
  | 0, level, idx => fun hl hidx => by
    have h0 : idx = 0 := by omega
    have hL : level = levels := by omega
    subst h0 hL
    rfl
  | r + 1, level, idx => fun hl hidx => by
    have hlen : (nthLayer H levels leaves level).length = 2 * 2 ^ r := by
      rw [nthLayer_length H levels leaves hcap level (by omega)]
      have : levels - level = r + 1 := by omega
      rw [this, pow_succ]
      ring
    have hnext := verify_chain_layers H levels leaves hcap r (level + 1) (idx / 2)
      (by omega) (by omega)
    by_cases hpar : idx % 2 = 0
    · have hsib : idx + 1 < (nthLayer H levels leaves level).length := by omega
      have hcur : idx < (nthLayer H levels leaves level).length := by omega
      unfold proofPathsGo
      dsimp only
      simp only [if_pos hpar]
      simp only [verifyChain, List.head?_cons, List.tail_cons]
      rw [if_true]
      rw [getD_default_eq _ _ hsib _ 0]
      have e1 : idx = 2 * (idx / 2) := by omega
      have hstep : H ((nthLayer H levels leaves level).getD idx 0)
          ((nthLayer H levels leaves level).getD (idx + 1) 0) =
          (nthLayer H levels leaves (level + 1)).getD (idx / 2) 0 := by
        show _ = (pairUp H (getZeroValue levels level)
          (nthLayer H levels leaves level)).getD (idx / 2) 0
        rw [pairUp_getD H _ _ _ (by omega : 2 * (idx / 2) + 1 <
          (nthLayer H levels leaves level).length)]
        rw [← e1]
      rw [hstep]
      exact hnext
    · have hsib : idx - 1 < (nthLayer H levels leaves level).length := by omega
      have hcur : idx < (nthLayer H levels leaves level).length := by omega
      unfold proofPathsGo
      dsimp only
      simp only [if_neg hpar]
      simp only [verifyChain, List.head?_cons, List.tail_cons]
      rw [if_neg (by simp : ¬(some 1 = some 0))]
      rw [getD_default_eq _ _ hsib _ 0]
      have hstep : H ((nthLayer H levels leaves level).getD (idx - 1) 0)
          ((nthLayer H levels leaves level).getD idx 0) =
          (nthLayer H levels leaves (level + 1)).getD (idx / 2) 0 := by
        show _ = (pairUp H (getZeroValue levels level)
          (nthLayer H levels leaves level)).getD (idx / 2) 0
        rw [pairUp_getD H _ _ _ (by omega : 2 * (idx / 2) + 1 <
          (nthLayer H levels leaves level).length)]
        have e1 : 2 * (idx / 2) = idx - 1 := by omega
        have e2 : 2 * (idx / 2) + 1 = idx := by omega
        rw [e2, e1]
      rw [hstep]
      exact hnext

theorem proofPathsGo_length (H : Nat → Nat → Nat) (levels : Nat) (leaves : List Nat) :
    ∀ r level idx,
      (proofPathsGo H levels leaves r level idx).1.length = r ∧
      (proofPathsGo H levels leaves r level idx).2.length = r
  | 0, _, _ => ⟨rfl, rfl⟩
  | r + 1, level, idx => by
    unfold proofPathsGo
    dsimp only
    have h := proofPathsGo_length H levels leaves r (level + 1) (idx / 2)
    constructor <;> simp [h.1, h.2]

/-- The chain recomputed from a getProof proof reaches its root. -/
theorem verify_getProof (H : Nat → Nat → Nat) (s : MerkleTreeState) (i : Nat)
    (hcap : s.leaves.length ≤ 2 ^ s.levels) (hi : i < s.leaves.length) :
    verifyChain H (getProofData H s i).leaf (getProofData H s i).pathElements
      (getProofData H s i).pathIndices = (getProofData H s i).root := by
  show verifyChain H (s.leaves.getD i 0)
    (proofPathsGo H s.levels s.leaves s.levels 0 i).1
    (proofPathsGo H s.levels s.leaves s.levels 0 i).2 = treeRoot H s
  have hleaf : s.leaves.getD i 0 = (nthLayer H s.levels s.leaves 0).getD i 0 := by
    show _ = (paddedLeaves s.levels s.leaves).getD i 0
    unfold paddedLeaves
    rw [getD_append_left _ _ _ hi]
  rw [hleaf]
  exact verify_chain_layers H s.levels s.leaves hcap s.levels 0 i (by omega)
    (by omega)

theorem verifyChain_ne (H : Nat → Nat → Nat) (hH : pairInj H) :
    ∀ (es is : List Nat) (cur cur' : Nat), cur ≠ cur' →
      verifyChain H cur es is ≠ verifyChain H cur' es is
  | [], _, _, _, hne => hne
  | _ :: es, is, cur, cur', hne => by
    simp only [verifyChain]
    apply verifyChain_ne H hH es is.tail
    by_cases hb : is.head? = some 0
    · rw [if_pos hb, if_pos hb]
      intro heq
      exact hne (hH _ _ _ _ heq).1
    · rw [if_neg hb, if_neg hb]
      intro heq
      exact hne (hH _ _ _ _ heq).2

theorem verifyChain_set_elem_ne (H : Nat → Nat → Nat) (hH : pairInj H) :
    ∀ (es is : List Nat) (j x cur : Nat), j < es.length → x ≠ es.getD j 0 →
      verifyChain H cur (es.set j x) is ≠ verifyChain H cur es is
  | [], _, j, _, _, hj, _ => absurd hj (by simp)
  | e :: es, is, 0, x, cur, _, hx => by
    simp only [List.set_cons_zero, verifyChain]
    by_cases hb : is.head? = some 0
    · rw [if_pos hb, if_pos hb]
      apply verifyChain_ne H hH
      intro heq
      exact hx (hH _ _ _ _ heq).2
    · rw [if_neg hb, if_neg hb]
      apply verifyChain_ne H hH
      intro heq
      exact hx (hH _ _ _ _ heq).1
  | e :: es, is, j + 1, x, cur, hj, hx => by
    simp only [List.set_cons_succ, verifyChain]
    exact verifyChain_set_elem_ne H hH es is.tail j x _
      (by simpa using hj) (by simpa using hx)

theorem verifyChain_flip_ne (H : Nat → Nat → Nat) (hH : pairInj H) :
    ∀ (es is : List Nat) (j cur : Nat), j < es.length → j < is.length →
      verifyChain H cur (es.take j) (is.take j) ≠ es.getD j 0 →
      verifyChain H cur es (is.set j (1 - is.getD j 0)) ≠ verifyChain H cur es is
  | [], _, j, _, hj, _, _ => absurd hj (by simp)
  | e :: es, b :: is, 0, cur, _, _, hcur => by
    simp only [List.take_zero, verifyChain, List.getD_cons_zero] at hcur ⊢
    simp only [List.set_cons_zero, verifyChain, List.head?_cons, List.tail_cons]
    by_cases hb : b = 0
    · subst hb
      rw [if_pos rfl, if_neg (by simp : ¬(some (1 - 0) = some 0))]
      apply verifyChain_ne H hH
      intro heq
      exact hcur ((hH _ _ _ _ heq).1).symm
    · have h1 : some (1 - b) = some 0 := by
        have hz : 1 - b = 0 := by omega
        rw [hz]
      have h2 : ¬(some b = some 0) := by simpa using hb
      rw [if_pos h1, if_neg h2]
      apply verifyChain_ne H hH
      intro heq
      exact hcur ((hH _ _ _ _ heq).2).symm
  | e :: es, b :: is, j + 1, cur, hj, hj2, hcur => by
    simp only [List.take_succ_cons, verifyChain, List.head?_cons,
      List.tail_cons, List.getD_cons_succ] at hcur ⊢
    simp only [List.set_cons_succ, verifyChain, List.head?_cons, List.tail_cons]
    exact verifyChain_flip_ne H hH es is j _
      (by simpa using hj) (by simpa using hj2) hcur

/-- C2 (amended): for every tree with at most 2 ^ levels leaves and
in-range index, getProof verifies; with a collision-free hash, changing
any single sibling falsifies verification, and flipping direction bit j
falsifies it whenever the running chain value at level j differs from
the sibling at level j (when they coincide the swap is invisible to the
hash, see the counterexample). -/
theorem shadow_c2_merkle_proofs (H : Nat → Nat → Nat) (s : MerkleTreeState)
    (i : Nat) (hcap : s.leaves.length ≤ 2 ^ s.levels)
    (hi : i < s.leaves.length) :
    verifyMerkleProof H (getProofData H s i) = true ∧
    (pairInj H → ∀ j x, j < s.levels →
      x ≠ (getProofData H s i).pathElements.getD j 0 →
      verifyMerkleProof H
        { getProofData H s i with
          pathElements := (getProofData H s i).pathElements.set j x } = false) ∧
    (pairInj H → ∀ j, j < s.levels →
      verifyChain H (getProofData H s i).leaf
          ((getProofData H s i).pathElements.take j)
          ((getProofData H s i).pathIndices.take j) ≠
        (getProofData H s i).pathElements.getD j 0 →
      verifyMerkleProof H
        { getProofData H s i with
          pathIndices := (getProofData H s i).pathIndices.set j
            (1 - (getProofData H s i).pathIndices.getD j 0) } = false) := by
  have hchain := verify_getProof H s i hcap hi
  have hlen := proofPathsGo_length H s.levels s.leaves s.levels 0 i
  refine ⟨?_, fun hH j x hj hx => ?_, fun hH j hj hne => ?_⟩
  · simp only [verifyMerkleProof]
    exact decide_eq_true hchain
  · simp only [verifyMerkleProof]
    apply decide_eq_false
    intro hcontra
    apply verifyChain_set_elem_ne H hH
      (getProofData H s i).pathElements (getProofData H s i).pathIndices j x
      (getProofData H s i).leaf (by exact hlen.1 ▸ hj) hx
    rw [hcontra, hchain]
  · simp only [verifyMerkleProof]
    apply decide_eq_false
    intro hcontra
    apply verifyChain_flip_ne H hH
      (getProofData H s i).pathElements (getProofData H s i).pathIndices j
      (getProofData H s i).leaf (by exact hlen.1 ▸ hj) (by exact hlen.2 ▸ hj) hne
    rw [hcontra, hchain]

/-- C2 witness: a two-leaf tree with the injective pairing hash. -/
theorem shadow_c2_witness :
    ((2 : Nat) ≤ 2 ^ 1 ∧ (0 : Nat) < 2) ∧
    verifyMerkleProof Nat.pair
      (getProofData Nat.pair { levels := 1, leaves := [1, 2] } 0) = true ∧
    verifyMerkleProof Nat.pair
      { getProofData Nat.pair { levels := 1, leaves := [1, 2] } 0 with
        pathElements :=
          (getProofData Nat.pair { levels := 1, leaves := [1, 2] } 0).pathElements.set
            0 7 } = false ∧
    verifyMerkleProof Nat.pair
      { getProofData Nat.pair { levels := 1, leaves := [1, 2] } 0 with
        pathIndices :=
          (getProofData Nat.pair { levels := 1, leaves := [1, 2] } 0).pathIndices.set
            0 (1 - (getProofData Nat.pair { levels := 1, leaves := [1, 2] } 0).pathIndices.getD 0 0) } =
      false := by
  have hinj : pairInj Nat.pair := fun a b c d h => Nat.pair_eq_pair.mp h
  have h := shadow_c2_merkle_proofs Nat.pair { levels := 1, leaves := [1, 2] } 0
    (by decide) (by decide)
  exact ⟨⟨by decide, by decide⟩, h.1,
    h.2.1 hinj 0 7 (by decide) (by decide),
    h.2.2 hinj 0 (by decide) (by decide)⟩

/-- C2 counterexample: in the depth-1 tree with two equal leaves, the
proof for leaf 0 carries direction bit 0, yet the proof with that bit
flipped to 1 still verifies under the repository's fallback hash. -/
theorem shadow_c2_counterexample :
    treeCE.leaves.length ≤ 2 ^ treeCE.levels ∧
    (getProofData sPoseidon2 treeCE 0).pathIndices = [0] ∧
    verifyMerkleProof sPoseidon2
      { getProofData sPoseidon2 treeCE 0 with pathIndices := [1] } = true := by
  refine ⟨by decide, by decide, ?_⟩
  decide

theorem exists_bits {F : Type} [CommRing F] :
    ∀ l : List F, (∀ s ∈ l, s = 0 ∨ s = 1) →
      ∃ bits : List Nat, (∀ b ∈ bits, b ≤ 1) ∧ l = bits.map (fun b => (b : F))
  | [], _ => ⟨[], by simp, by simp⟩
  | s :: l, h => by
    obtain ⟨bits, hb, hl⟩ :=
      exists_bits l (fun x hx => h x (List.mem_cons_of_mem s hx))
    rcases h s (List.mem_cons_self s l) with h0 | h1
    · refine ⟨0 :: bits, ?_, ?_⟩
      · intro b hbmem
        rcases List.mem_cons.mp hbmem with hb0 | hbm
        · omega
        · exact hb b hbm
      · simp [hl, h0]
    · refine ⟨1 :: bits, ?_, ?_⟩
      · intro b hbmem
        rcases List.mem_cons.mp hbmem with hb0 | hbm
        · omega
        · exact hb b hbm
      · simp [hl, h1]

theorem leafIndexFromBits_map_cast {F : Type} [CommRing F] :
    ∀ (bits : List Nat) (i : Nat),
      leafIndexFromBits i (bits.map (fun b => (b : F))) =
        ((natOfBitsLE bits * 2 ^ i : Nat) : F)
  | [], i => by simp [leafIndexFromBits, natOfBitsLE]
  | b :: bits, i => by
    show (b : F) * 2 ^ i + leafIndexFromBits (i + 1) (bits.map fun b => (b : F)) = _
    rw [leafIndexFromBits_map_cast bits (i + 1)]
    have hsplit : natOfBitsLE (b :: bits) * 2 ^ i =
        b * 2 ^ i + natOfBitsLE bits * 2 ^ (i + 1) := by
      show (b + 2 * natOfBitsLE bits) * 2 ^ i = _
      ring
    rw [hsplit]
    push_cast
    ring

theorem proofPathsGo_bits_value (H : Nat → Nat → Nat) (levels : Nat)
    (leaves : List Nat) :
    ∀ (r level idx : Nat),
      natOfBitsLE (proofPathsGo H levels leaves r level idx).2 = idx % 2 ^ r
  | 0, _, idx => by simp [proofPathsGo, natOfBitsLE, Nat.mod_one]
  | r + 1, level, idx => by
    unfold proofPathsGo
    dsimp only
    simp only [natOfBitsLE,
      proofPathsGo_bits_value H levels leaves r (level + 1) (idx / 2)]
    have hp : (2 : Nat) ^ (r + 1) = 2 * 2 ^ r := by ring
    rw [hp, Nat.mod_mul]
    by_cases hpar : idx % 2 = 0 <;> simp [hpar] <;> omega

theorem proofPathsGo_bit_getD (H : Nat → Nat → Nat) (levels : Nat)
    (leaves : List Nat) :
    ∀ (r level idx l : Nat), l < r →
      (proofPathsGo H levels leaves r level idx).2.getD l 0 = (idx / 2 ^ l) % 2
  | 0, _, _, l, hl => absurd hl (by omega)
  | r + 1, level, idx, 0, _ => by
    unfold proofPathsGo
    dsimp only
    simp only [List.getD_cons_zero, pow_zero, Nat.div_one]
    by_cases hpar : idx % 2 = 0 <;> simp [hpar] <;> omega
  | r + 1, level, idx, l + 1, hl => by
    unfold proofPathsGo
    dsimp only
    simp only [List.getD_cons_succ]
    rw [proofPathsGo_bit_getD H levels leaves r (level + 1) (idx / 2) l (by omega)]
    rw [Nat.div_div_eq_div_mul, ← pow_succ']

/-- C3: in every satisfying Withdraw assignment over a field, each
direction bit is 0 or 1 and the public nullifierHash equals
H(nullifier, L) for L the little-endian value of the bits; and the bits
getProof emits encode exactly the leaf index, bit l being the parity of
the level-l node index (1 exactly for a right child). -/
theorem shadow_c3_withdraw_leaf_index :
    (∀ (F : Type) [Field F] (H : F → F → F) (levels : Nat)
        (a : WithdrawAssignment F), WithdrawSat H levels a →
      (∀ s ∈ a.pathIndices, s = 0 ∨ s = 1) ∧
      ∃ bits : List Nat, (∀ b ∈ bits, b ≤ 1) ∧
        a.pathIndices = bits.map (fun b => (b : F)) ∧
        a.nullifierHash = H a.nullifier ((natOfBitsLE bits : Nat) : F)) ∧
    (∀ (H : Nat → Nat → Nat) (s : MerkleTreeState) (i : Nat),
      s.leaves.length ≤ 2 ^ s.levels → i < s.leaves.length →
      natOfBitsLE (getProofData H s i).pathIndices = i ∧
      ∀ l, l < s.levels →
        (getProofData H s i).pathIndices.getD l 0 = (i / 2 ^ l) % 2) := by
  constructor
  · intro F instF H levels a hsat
    obtain ⟨hle, hli, hbin, hroot, hnh⟩ := hsat
    have hbin' : ∀ s ∈ a.pathIndices, s = 0 ∨ s = 1 := by
      intro s hs
      rcases mul_eq_zero.mp (hbin s hs) with h0 | h1
      · exact Or.inl h0
      · exact Or.inr (sub_eq_zero.mp h1).symm
    refine ⟨hbin', ?_⟩
    obtain ⟨bits, hb, hmap⟩ := exists_bits a.pathIndices hbin'
    refine ⟨bits, hb, hmap, ?_⟩
    rw [hnh, hmap, leafIndexFromBits_map_cast]
    norm_num
  · intro H s i hcap hi
    constructor
    · show natOfBitsLE (proofPathsGo H s.levels s.leaves s.levels 0 i).2 = i
      rw [proofPathsGo_bits_value]
      exact Nat.mod_eq_of_lt (by omega)
    · intro l hl
      exact proofPathsGo_bit_getD H s.levels s.leaves s.levels 0 i l hl

/-- C3 witness: a satisfying depth-1 assignment over ZMod 11, its bit
list, and the leaf-index reconstruction of a concrete getProof path. -/
theorem shadow_c3_witness :
    WithdrawSat hashW 1 assignW ∧
    (∃ bits : List Nat, (∀ b ∈ bits, b ≤ 1) ∧
      assignW.pathIndices = bits.map (fun b => (b : ZMod 11)) ∧
      assignW.nullifierHash =
        hashW assignW.nullifier ((natOfBitsLE bits : Nat) : ZMod 11)) ∧
    natOfBitsLE (getProofData Nat.pair treeW 2).pathIndices = 2 := by
  haveI : Fact (Nat.Prime 11) := ⟨by norm_num⟩
  have hsat : WithdrawSat hashW 1 assignW := by
    unfold WithdrawSat
    refine ⟨rfl, rfl, by decide, by decide, by decide⟩
  have h1 := shadow_c3_withdraw_leaf_index.1 (ZMod 11) hashW 1 assignW hsat
  have h2 := (shadow_c3_withdraw_leaf_index.2 Nat.pair treeW 2
    (by decide) (by decide)).1
  exact ⟨hsat, h1.2, h2⟩

example : sha256 [] =
    [0xe3, 0xb0, 0xc4, 0x42, 0x98, 0xfc, 0x1c, 0x14, 0x9a, 0xfb, 0xf4, 0xc8,
     0x99, 0x6f, 0xb9, 0x24, 0x27, 0xae, 0x41, 0xe4, 0x64, 0x9b, 0x93, 0x4c,
     0xa4, 0x95, 0x99, 0x1b, 0x78, 0x52, 0xb8, 0x55] := by decide

example : sha256 [97, 98, 99] =
    [0xba, 0x78, 0x16, 0xbf, 0x8f, 0x01, 0xcf, 0xea, 0x41, 0x41, 0x40, 0xde,
     0x5d, 0xae, 0x22, 0x23, 0xb0, 0x03, 0x61, 0xa3, 0x96, 0x17, 0x7a, 0x9c,
     0xb4, 0x10, 0xff, 0x61, 0xf2, 0x00, 0x15, 0xad] := by decide

example : sha512 [97, 98, 99] =
    [0xdd, 0xaf, 0x35, 0xa1, 0x93, 0x61, 0x7a, 0xba, 0xcc, 0x41, 0x73, 0x49,
     0xae, 0x20, 0x41, 0x31, 0x12, 0xe6, 0xfa, 0x4e, 0x89, 0xa9, 0x7e, 0xa2,
     0x0a, 0x9e, 0xee, 0xe6, 0x4b, 0x55, 0xd3, 0x9a, 0x21, 0x92, 0x99, 0x2a,
     0x27, 0x4f, 0xc1, 0xa8, 0x36, 0xba, 0x3c, 0x23, 0xa3, 0xfe, 0xeb, 0xbd,
     0x45, 0x4d, 0x44, 0x23, 0x64, 0x3c, 0xe8, 0x0e, 0x2a, 0x9a, 0xc9, 0x4f,
     0xa5, 0x4c, 0xa4, 0x9f] := by decide

example : ed25519GetPublicKey
    [0x9d, 0x61, 0xb1, 0x9d, 0xef, 0xfd, 0x5a, 0x60, 0xba, 0x84, 0x4a, 0xf4,
     0x92, 0xec, 0x2c, 0xc4, 0x44, 0x49, 0xc5, 0x69, 0x7b, 0x32, 0x69, 0x19,
     0x70, 0x3b, 0xac, 0x03, 0x1c, 0xae, 0x7f, 0x60] =
    [0xd7, 0x5a, 0x98, 0x01, 0x82, 0xb1, 0x0a, 0xb7, 0xd5, 0x4b, 0xfe, 0xd3,
     0xc9, 0x64, 0x07, 0x3a, 0x0e, 0xe1, 0x72, 0xf3, 0xda, 0xa6, 0x23, 0x25,
     0xaf, 0x02, 0x1a, 0x68, 0xf7, 0x07, 0x51, 0x1a] := by decide
